import Mathlib

/-!
A verification development for the go-pipeline function-chaining engine.

The embedding mirrors the source files `pipeline.go`, `config.go` and
`context.go`.  Go `reflect.Type` becomes an abstract type tag `Ty`;
`reflect.Value` becomes a tagged `Value`.  Go maps become association lists
(whose order stands in for Go's unspecified iteration order) or functions
with the zero value as default, matching how each map is used in the source.
Go's `AssignableTo` is an abstract relation `A : Ty → Ty → Bool` passed to
every operation that checks assignability.  Fallible Go functions return
`Except PipelineError`.
-/

namespace GoPipeline

/-- Type tag standing for a Go `reflect.Type`. -/
abbrev Ty := Nat

/-- A dynamically typed value (a Go `reflect.Value`): a type tag plus an
opaque payload. -/
structure Value where
  ty : Ty
  payload : Nat
deriving DecidableEq, Repr

instance : Inhabited Value := ⟨⟨0, 0⟩⟩

/-- Error taxonomy: one constructor per `fmt.Errorf` site in the source.
`cannotFindValue` is `resolveArgDefault`'s wrapper around a context error. -/
inductive PipelineError where
  | notFound (t : Ty)
  | invalidIndex (t : Ty)
  | cannotFindValue (stepName : String) (t : Ty) (inner : PipelineError)
  | missingArgument (stepName : String) (t : Ty)
  | unknownPolicy (stepName : String)
  | initialIndexOutOfRange (stepName : String) (index : Int) (total : Nat)
  | initialTypeMismatch (stepName : String) (index : Int) (found : Ty) (want : Ty)
  | unknownProducer (stepName : String) (producer : String)
  | outputIndexOutOfRange (stepName : String) (index : Int) (producer : String) (total : Nat)
  | outputTypeMismatch (stepName : String) (found : Ty) (producer : String) (want : Ty)
deriving DecidableEq, Repr

deriving instance DecidableEq for Except

/-- Go `MissingArgPolicy` is an integer type in `config.go`; `iota` gives
`UseLatest = 0`, `Fail = 1`, and other integers are unknown policies. -/
def MissingArgPolicyUseLatest : Nat := 0

/-- The `Fail` missing-argument policy (`iota` value 1 in `config.go`). -/
def MissingArgPolicyFail : Nat := 1

/-- Go `ArgSourceType` integer constants from `config.go` (`iota`). -/
def ArgSourceDefault : Nat := 0

/-- Go `ArgSourceInitial` constant (`iota` value 1). -/
def ArgSourceInitial : Nat := 1

/-- Go `ArgSourceFunctionOutput` constant (`iota` value 2). -/
def ArgSourceFunctionOutput : Nat := 2

/-- Go `ArgBinding` from `config.go`: a source kind, a producing step name
(used by `ArgSourceFunctionOutput`) and an index (a Go `int`). -/
structure ArgBinding where
  source : Nat
  name : String
  index : Int
deriving DecidableEq, Repr

/-- Go `StepConfig` from `config.go`: positional bindings, `none` for a `nil`
entry. -/
structure StepConfig where
  argBindings : List (Option ArgBinding)
deriving DecidableEq, Repr

/-- Go `PipelineConfig` from `config.go`.  `stepConfigs` is the
name-to-`StepConfig` map as an association list. -/
structure PipelineConfig where
  stepOrder : List String
  missingArgPolicy : Nat
  outputFilter : List String
  stepConfigs : List (String × StepConfig)
deriving DecidableEq, Repr

/-- Go `NewPipelineConfig` from `config.go`. -/
def NewPipelineConfig : PipelineConfig :=
  { stepOrder := [], missingArgPolicy := MissingArgPolicyUseLatest,
    outputFilter := [], stepConfigs := [] }

/-- Association-list lookup, modelling a Go map read `v, ok := m[k]`. -/
def mapLookup {α : Type} (m : List (String × α)) (k : String) : Option α :=
  (m.find? (fun kv => kv.1 == k)).map Prod.snd

/-- Models the Go map update `m[k] = append(m[k], vs...)`: the key is
created (with the appended list) even when `vs` is empty. -/
def mapAppendEntry (m : List (String × List Value)) (k : String) (vs : List Value) :
    List (String × List Value) :=
  if (mapLookup m k).isSome then
    m.map (fun kv => if kv.1 == k then (kv.1, kv.2 ++ vs) else kv)
  else m ++ [(k, vs)]

/-- Go `ExecutionContext` from `context.go`: the type-indexed value store
(`values`, a Go map read with `nil` default, hence a total function with
default `[]`) and the ordered initial inputs. -/
structure ExecutionContext where
  values : Ty → List Value
  initialValues : List Value

/-- Go `NewExecutionContext` from `context.go`. -/
def NewExecutionContext : ExecutionContext :=
  { values := fun _ => [], initialValues := [] }

/-- Go `storeValue` from `context.go`: append a value to its type's sequence. -/
def ExecutionContext.storeValue (ctx : ExecutionContext) (v : Value) : ExecutionContext :=
  { ctx with values := fun t => if t = v.ty then ctx.values t ++ [v] else ctx.values t }

/-- Go `AddInputs` from `context.go`: each input goes to both its
type-sequence and the initial-input sequence, in call order. -/
def ExecutionContext.addInputs (ctx : ExecutionContext) (inputs : List Value) : ExecutionContext :=
  inputs.foldl
    (fun c v =>
      { values := fun t => if t = v.ty then c.values t ++ [v] else c.values t,
        initialValues := c.initialValues ++ [v] })
    ctx

/-- Go `StoreResults` from `context.go`: append each result by its type. -/
def ExecutionContext.storeResults (ctx : ExecutionContext) (results : List Value) : ExecutionContext :=
  results.foldl ExecutionContext.storeValue ctx

/-- Go `getValueByIndex` from `context.go`: `NotFound` when the type has no
values, `InvalidIndex` when the index is negative, otherwise the index is
clamped to the last valid position. -/
def ExecutionContext.getValueByIndex (ctx : ExecutionContext) (t : Ty) (index : Int) :
    Except PipelineError Value :=
  let vals := ctx.values t
  if vals.isEmpty then .error (.notFound t)
  else if index < 0 then .error (.invalidIndex t)
  else if (vals.length : Int) ≤ index then .ok (vals.getD (vals.length - 1) default)
  else .ok (vals.getD index.toNat default)

/-- Go `Step` from `pipeline.go`: a name plus a callable.  The callable's
reflected parameter types are `params`; `impl` is the uniform
list-in, list-out invocation of `reflect.Value.Call`. -/
structure Step where
  name : String
  params : List Ty
  impl : List Value → List Value

/-- The mutable fields of a `Pipeline` that execution touches: the
execution context, the step-output log (a map as an association list) and
the per-type pick counters (a Go map read with `0` default). -/
structure PipelineState where
  ctx : ExecutionContext
  stepOutputs : List (String × List Value)
  pickCounters : Ty → Nat

/-- The state of a pipeline fresh out of `NewPipeline`. -/
def emptyPipelineState : PipelineState :=
  { ctx := NewExecutionContext, stepOutputs := [], pickCounters := fun _ => 0 }

/-- Go `AddInitialInputs` from `pipeline.go`. -/
def addInitialInputs (st : PipelineState) (inputs : List Value) : PipelineState :=
  { st with ctx := st.ctx.addInputs inputs }

/-- Models `p.pickCounters = make(map[reflect.Type]int)`: the per-step
counter reset in `Execute`. -/
def resetCounters (st : PipelineState) : PipelineState :=
  { st with pickCounters := fun _ => 0 }

/-- The binding used for parameter `i` of step `stepName`: the Go guard
`hasStepCfg && i < len(bindings) && bindings[i] != nil` collapsed into an
`Option`. -/
def bindingAt (cfg : PipelineConfig) (stepName : String) (i : Nat) : Option ArgBinding :=
  match mapLookup cfg.stepConfigs stepName with
  | none => none
  | some sc => sc.argBindings.getD i none

/-- Go `resolveArgDefault` from `pipeline.go`: apply the missing-argument
policy.  Under `UseLatest` it reads the pick counter, looks the value up
(wrapping any context error), and advances the counter only while strictly
below the last index; under `Fail` it always fails; any other policy value
is `UnknownPolicy`. -/
def resolveArgDefault (cfg : PipelineConfig) (st : PipelineState) (stepName : String)
    (paramType : Ty) : Except PipelineError (Value × PipelineState) :=
  if cfg.missingArgPolicy = MissingArgPolicyUseLatest then
    let idx := st.pickCounters paramType
    match st.ctx.getValueByIndex paramType (idx : Int) with
    | .error e => .error (.cannotFindValue stepName paramType e)
    | .ok val =>
      let vals := st.ctx.values paramType
      if (idx : Int) < (vals.length : Int) - 1 then
        .ok (val, { st with pickCounters := fun t => if t = paramType then idx + 1 else st.pickCounters t })
      else
        .ok (val, st)
  else if cfg.missingArgPolicy = MissingArgPolicyFail then
    .error (.missingArgument stepName paramType)
  else
    .error (.unknownPolicy stepName)

/-- Go `resolveArgFromInitial` from `pipeline.go`. -/
def resolveArgFromInitial (A : Ty → Ty → Bool) (st : PipelineState) (stepName : String)
    (paramType : Ty) (index : Int) : Except PipelineError Value :=
  let allInitial := st.ctx.initialValues
  if index < 0 ∨ (allInitial.length : Int) ≤ index then
    .error (.initialIndexOutOfRange stepName index allInitial.length)
  else
    let val := allInitial.getD index.toNat default
    if A val.ty paramType then .ok val
    else .error (.initialTypeMismatch stepName index val.ty paramType)

/-- Go `resolveArgFromFunctionOutput` from `pipeline.go`: the `ok` of the Go
map read is key presence in the step-output log. -/
def resolveArgFromFunctionOutput (A : Ty → Ty → Bool) (st : PipelineState) (stepName : String)
    (paramType : Ty) (funcName : String) (outputIndex : Int) : Except PipelineError Value :=
  match mapLookup st.stepOutputs funcName with
  | none => .error (.unknownProducer stepName funcName)
  | some outputs =>
    if outputIndex < 0 ∨ (outputs.length : Int) ≤ outputIndex then
      .error (.outputIndexOutOfRange stepName outputIndex funcName outputs.length)
    else
      let out := outputs.getD outputIndex.toNat default
      if A out.ty paramType then .ok out
      else .error (.outputTypeMismatch stepName out.ty funcName paramType)

/-- Go `resolveArg` from `pipeline.go`: dispatch on the binding source; both
`ArgSourceDefault` and unknown sources fall back to default resolution. -/
def resolveArg (A : Ty → Ty → Bool) (cfg : PipelineConfig) (st : PipelineState) (stepName : String)
    (paramType : Ty) (b : ArgBinding) : Except PipelineError (Value × PipelineState) :=
  if b.source = ArgSourceInitial then
    match resolveArgFromInitial A st stepName paramType b.index with
    | .error e => .error e
    | .ok v => .ok (v, st)
  else if b.source = ArgSourceFunctionOutput then
    match resolveArgFromFunctionOutput A st stepName paramType b.name b.index with
    | .error e => .error e
    | .ok v => .ok (v, st)
  else
    resolveArgDefault cfg st stepName paramType

/-- The argument-resolution loop of `executeStep`: parameter `i` onward,
threading the pick counters, aborting on the first error. -/
def resolveArgs (A : Ty → Ty → Bool) (cfg : PipelineConfig) (stp : Step) :
    List Ty → Nat → PipelineState → Except PipelineError (List Value × PipelineState)
  | [], _, st => .ok ([], st)
  | t :: ts, i, st =>
    let r := match bindingAt cfg stp.name i with
      | some b => resolveArg A cfg st stp.name t b
      | none => resolveArgDefault cfg st stp.name t
    match r with
    | .error e => .error e
    | .ok (v, st1) =>
      match resolveArgs A cfg stp ts (i + 1) st1 with
      | .error e => .error e
      | .ok (vs, st2) => .ok (v :: vs, st2)

/-- Go `executeStep` from `pipeline.go`: resolve every parameter, invoke the
callable, store the results in the context and append them to the output
log under the step's name (creating the entry even for zero results, as
the Go map assignment does). -/
def executeStep (A : Ty → Ty → Bool) (cfg : PipelineConfig) (st : PipelineState) (stp : Step) :
    Except PipelineError PipelineState :=
  match resolveArgs A cfg stp stp.params 0 st with
  | .error e => .error e
  | .ok (args, st1) =>
    let results := stp.impl args
    .ok { st1 with
          ctx := st1.ctx.storeResults results,
          stepOutputs := mapAppendEntry st1.stepOutputs stp.name results }

/-- The Go `stepMap` lookup of `reorderStepsIfNeeded`: the map is built by
overwriting, so a name resolves to the last registered step bearing it. -/
def stepLookup (steps : List Step) (n : String) : Option Step :=
  steps.reverse.find? (fun s => s.name == n)

/-- Go `reorderStepsIfNeeded` from `pipeline.go`: with an empty configured
order, a no-op; otherwise every occurrence of a known name in the order
appends that step (unknown names are skipped with a warning, which the
embedding drops), then the steps whose names were never used follow in
registration order. -/
def reorderStepsIfNeeded (cfg : PipelineConfig) (steps : List Step) : List Step :=
  if cfg.stepOrder.isEmpty then steps
  else
    (cfg.stepOrder.filterMap (fun n => stepLookup steps n)) ++
      steps.filter (fun s =>
        ! ((cfg.stepOrder.filter (fun n => (stepLookup steps n).isSome)).contains s.name))

/-- Go `filterOutputs` from `pipeline.go`: empty filter returns the log
unchanged; otherwise keep exactly the entries whose name is in the
filter set. -/
def filterOutputs (cfg : PipelineConfig) (outputs : List (String × List Value)) :
    List (String × List Value) :=
  if cfg.outputFilter.isEmpty then outputs
  else outputs.filter (fun kv => cfg.outputFilter.contains kv.1)

/-- The step loop of `Execute`: counters are reset before every step and
the first failing step aborts the run (the returned state is the one the
failing step started from; its outputs and values were never touched). -/
def runSteps (A : Ty → Ty → Bool) (cfg : PipelineConfig) :
    List Step → PipelineState → PipelineState × Option PipelineError
  | [], st => (st, none)
  | s :: rest, st =>
    match executeStep A cfg (resetCounters st) s with
    | .error e => (resetCounters st, some e)
    | .ok st1 => runSteps A cfg rest st1

/-- Go `Execute` from `pipeline.go`: reorder, run every step, and either
return the filtered output log or `nil` together with the first error. -/
def Execute (A : Ty → Ty → Bool) (cfg : PipelineConfig) (steps : List Step)
    (st : PipelineState) : Option (List (String × List Value)) × Option PipelineError :=
  match runSteps A cfg (reorderStepsIfNeeded cfg steps) st with
  | (_, some e) => (none, some e)
  | (st1, none) => (some (filterOutputs cfg st1.stepOutputs), none)

/-- The reordering exactly as claim C2's words state it: the steps named
in the order that exist, in the order's order, each named step appended
exactly once, followed by the steps not named in the order in their
original registration order.  Written from the claim, to be compared with
`reorderStepsIfNeeded`. -/
def claimedReorder (order : List String) (steps : List Step) : List Step :=
  (order.dedup.filterMap (fun n => steps.find? (fun s => s.name == n))) ++
    steps.filter (fun s => ! (order.contains s.name))

/-- Parameter slot `i` of a step falls back to default resolution: no
step config, a too-short binding list, a `nil` entry, or a `Default`
binding. -/
def isDefaultBindingSlot (cfg : PipelineConfig) (stepName : String) (i : Nat) : Prop :=
  bindingAt cfg stepName i = none ∨
    ∃ b, bindingAt cfg stepName i = some b ∧ b.source = ArgSourceDefault

/-- Nominal type equality, the simplest concrete assignability relation. -/
def tyEq : Ty → Ty → Bool := fun a b => a == b

/-- Concrete pipeline state with two stored values of type `0`. -/
def c1State : PipelineState :=
  addInitialInputs emptyPipelineState [⟨0, 10⟩, ⟨0, 20⟩]

/-- Concrete step requesting three default-resolved parameters of type `0`. -/
def c1Step : Step :=
  { name := "s", params := List.replicate 3 0, impl := fun _ => [] }

/-- Concrete step named `a` for the reordering counterexample. -/
def c2Step : Step :=
  { name := "a", params := [], impl := fun _ => [] }

/-- Configured order that names step `a` twice. -/
def c2Config : PipelineConfig :=
  { NewPipelineConfig with stepOrder := ["a", "a"] }

/-- Configured order with one unknown name followed by a known one. -/
def c2AmendConfig : PipelineConfig :=
  { NewPipelineConfig with stepOrder := ["q", "a"] }

/-- Config with the `Fail` missing-argument policy. -/
def c3Config : PipelineConfig :=
  { NewPipelineConfig with missingArgPolicy := MissingArgPolicyFail }

/-- A step whose single default-resolved parameter fails under `Fail`. -/
def c3FailStep : Step :=
  { name := "f", params := [0], impl := fun _ => [] }

/-- A step scheduled after the failing one; it must never run. -/
def c3PostStep : Step :=
  { name := "g", params := [], impl := fun _ => [⟨1, 1⟩] }

/-- Concrete state whose output log records one value under `p`. -/
def c4State : PipelineState :=
  { emptyPipelineState with stepOutputs := [("p", [⟨3, 7⟩])] }

/-- Concrete context with a single stored value of type `0`. -/
def c5Ctx : ExecutionContext :=
  NewExecutionContext.addInputs [⟨0, 5⟩]

/-- Concrete state with one initial input of type `2`. -/
def c6State : PipelineState :=
  addInitialInputs emptyPipelineState [⟨2, 9⟩]

/-- Config whose output filter names only `x`. -/
def c8Config : PipelineConfig :=
  { NewPipelineConfig with outputFilter := ["x"] }

/-- Concrete output log with entries `x` and `y`. -/
def c8Log : List (String × List Value) :=
  [("x", [⟨0, 1⟩]), ("y", [])]

/-- A step that runs and returns zero values. -/
def c9Step : Step :=
  { name := "Z", params := [], impl := fun _ => [] }

/-- Config whose output filter names the zero-output step `Z`. -/
def c9Config : PipelineConfig :=
  { NewPipelineConfig with outputFilter := ["Z"] }

/-- With unique step names, the last-overwrite `stepMap` lookup coincides
with a first-match search over the registration list. -/
theorem stepLookup_of_nodup (steps : List Step) (hS : (steps.map Step.name).Nodup)
    (n : String) : stepLookup steps n = steps.find? (fun s => s.name == n) := by
  induction steps with
  | nil => rfl
  | cons s rest ih =>
    rw [List.map_cons, List.nodup_cons] at hS
    obtain ⟨hnotin, hnd⟩ := hS
    unfold stepLookup
    rw [List.reverse_cons, List.find?_append]
    by_cases hn : (s.name == n) = true
    · have hname : s.name = n := by simpa using hn
      have hnone : rest.reverse.find? (fun s' => s'.name == n) = none := by
        rw [List.find?_eq_none]
        intro x hx hpx
        have hxname : x.name = n := by simpa using hpx
        exact hnotin (List.mem_map.mpr ⟨x, List.mem_reverse.mp hx, by rw [hxname, hname]⟩)
      rw [hnone, Option.none_or]
      simp [hn]
    · have h1 := ih hnd
      unfold stepLookup at h1
      simp [hn, Option.or_none, h1]

/-- Claim C2 counterexample: with the configured order `["a", "a"]` naming
the single registered step `a` twice, the code appends the step once per
occurrence, producing `[a, a]`, while the claim's characterization
(`claimedReorder`, each named step appended exactly once) produces `[a]`:
the claim as stated fails for orders containing duplicate names. -/
theorem C2_reorder_counterexample :
    (reorderStepsIfNeeded c2Config [c2Step]).map Step.name = ["a", "a"] ∧
    (claimedReorder c2Config.stepOrder [c2Step]).map Step.name = ["a"] := by
  constructor
  · rfl
  · rfl

/-- Claim C2 (amended): provided step names are unique (as §3 of the spec
assumes) and the configured order contains no duplicate names, the
reordering produces exactly the steps named in the order that exist, in the
order's order, each appended exactly once, followed by the steps not named
in the order in their original registration order; unknown names are
skipped, and an empty configured order leaves the sequence unchanged. -/
theorem C2_reorder_amended (cfg : PipelineConfig) (steps : List Step)
    (hS : (steps.map Step.name).Nodup) (hO : cfg.stepOrder.Nodup) :
    reorderStepsIfNeeded cfg steps = claimedReorder cfg.stepOrder steps := by
  unfold reorderStepsIfNeeded claimedReorder
  by_cases h : cfg.stepOrder.isEmpty
  · have h0 : cfg.stepOrder = [] := by simpa using h
    rw [if_pos h, h0]
    simp
  · rw [if_neg h, List.Nodup.dedup hO]
    have hfind := stepLookup_of_nodup steps hS
    congr 1
    · exact List.filterMap_congr (fun n _ => hfind n)
    · apply List.filter_congr
      intro s hs
      have hsome : (stepLookup steps s.name).isSome = true := by
        rw [hfind s.name]
        exact List.find?_isSome.mpr ⟨s, hs, by simp⟩
      have hiff : (s.name ∈ cfg.stepOrder.filter (fun n => (stepLookup steps n).isSome)) ↔
          s.name ∈ cfg.stepOrder :=
        ⟨fun hx => (List.mem_filter.mp hx).1, fun hx => List.mem_filter.mpr ⟨hx, hsome⟩⟩
      congr 1
      simp only [List.elem_eq_mem]
      rw [decide_eq_decide]
      exact hiff

/-- Claim C2 (amended) witness: order `["q", "a"]` with `q` unknown on the
single step `a`. -/
theorem C2_reorder_amended_witness :
    reorderStepsIfNeeded c2AmendConfig [c2Step] =
      claimedReorder c2AmendConfig.stepOrder [c2Step] :=
  C2_reorder_amended c2AmendConfig [c2Step] (by decide) (by decide)

/-- Claim C5: `valueAt` fails with `NotFound` when the type has no stored
values, fails with `InvalidIndex` when the index is negative, and otherwise
returns the value at position `min(index, length - 1)` of the type's
sequence, clamping an index past the end to the last valid position instead
of failing. -/
theorem C5_valueAt_clamps (ctx : ExecutionContext) (t : Ty) (i : Int) :
    (ctx.values t = [] → ctx.getValueByIndex t i = .error (.notFound t)) ∧
    (ctx.values t ≠ [] → i < 0 → ctx.getValueByIndex t i = .error (.invalidIndex t)) ∧
    (ctx.values t ≠ [] → 0 ≤ i →
      ctx.getValueByIndex t i =
        .ok ((ctx.values t).getD (min i.toNat ((ctx.values t).length - 1)) default)) := by
  simp only [ExecutionContext.getValueByIndex]
  refine ⟨?_, ?_, ?_⟩
  · intro h
    rw [if_pos (by simp [h])]
  · intro h hneg
    rw [if_neg (by simp [h]), if_pos hneg]
  · intro h hpos
    have hlen : 0 < (ctx.values t).length := List.length_pos.mpr h
    rw [if_neg (by simp [h]), if_neg (by omega)]
    by_cases hc : ((ctx.values t).length : Int) ≤ i
    · rw [if_pos hc]
      have hmin : min i.toNat ((ctx.values t).length - 1) = (ctx.values t).length - 1 := by
        omega
      rw [hmin]
    · rw [if_neg hc]
      have hmin : min i.toNat ((ctx.values t).length - 1) = i.toNat := by
        omega
      rw [hmin]

/-- Claim C5 witness: one stored value of type `0`, index `7` clamps to
position `0`. -/
theorem C5_valueAt_clamps_witness :
    c5Ctx.getValueByIndex 0 7 = .ok ⟨0, 5⟩ :=
  ((C5_valueAt_clamps c5Ctx 0 7).2.2 (by decide) (by decide)).trans (by decide)

/-- Claim C6: an `Initial` binding with index `i` fails with
`IndexOutOfRange` unless `0 ≤ i <` length of the initial-input sequence,
fails with `TypeMismatch` unless the value at position `i` is assignable to
the declared parameter type, and otherwise returns that value unchanged. -/
theorem C6_initial_binding (A : Ty → Ty → Bool) (st : PipelineState) (nm : String)
    (T : Ty) (i : Int) :
    (¬ (0 ≤ i ∧ i < (st.ctx.initialValues.length : Int)) →
      resolveArgFromInitial A st nm T i =
        .error (.initialIndexOutOfRange nm i st.ctx.initialValues.length)) ∧
    (0 ≤ i → i < (st.ctx.initialValues.length : Int) →
      A (st.ctx.initialValues.getD i.toNat default).ty T = false →
      resolveArgFromInitial A st nm T i =
        .error (.initialTypeMismatch nm i (st.ctx.initialValues.getD i.toNat default).ty T)) ∧
    (0 ≤ i → i < (st.ctx.initialValues.length : Int) →
      A (st.ctx.initialValues.getD i.toNat default).ty T = true →
      resolveArgFromInitial A st nm T i = .ok (st.ctx.initialValues.getD i.toNat default)) := by
  simp only [resolveArgFromInitial]
  refine ⟨?_, ?_, ?_⟩
  · intro h
    rw [if_pos (by omega)]
  · intro h1 h2 hA
    rw [if_neg (by omega), if_neg (by simp only [Bool.not_eq_true]; exact hA)]
  · intro h1 h2 hA
    rw [if_neg (by omega), if_pos hA]

/-- Claim C6 witness: initial input `⟨2, 9⟩` at index `0` resolves under
nominal assignability. -/
theorem C6_initial_binding_witness :
    resolveArgFromInitial tyEq c6State "w" 2 0 = .ok ⟨2, 9⟩ :=
  ((C6_initial_binding tyEq c6State "w" 2 0).2.2 (by decide) (by decide)
    (by decide)).trans (by decide)

/-- Claim C4: a `FunctionOutput` binding naming step `n` at index `i` fails
with `UnknownProducer` when the output log has no entry for `n`, fails with
`IndexOutOfRange` unless `0 ≤ i <` length of `n`'s output sequence, fails
with `TypeMismatch` unless the stored value is assignable to the declared
parameter type, and otherwise returns that value. -/
theorem C4_function_output_binding (A : Ty → Ty → Bool) (st : PipelineState) (nm : String)
    (T : Ty) (n : String) (i : Int) :
    (mapLookup st.stepOutputs n = none →
      resolveArgFromFunctionOutput A st nm T n i = .error (.unknownProducer nm n)) ∧
    (∀ outs, mapLookup st.stepOutputs n = some outs →
      ¬ (0 ≤ i ∧ i < (outs.length : Int)) →
      resolveArgFromFunctionOutput A st nm T n i =
        .error (.outputIndexOutOfRange nm i n outs.length)) ∧
    (∀ outs, mapLookup st.stepOutputs n = some outs → 0 ≤ i → i < (outs.length : Int) →
      A (outs.getD i.toNat default).ty T = false →
      resolveArgFromFunctionOutput A st nm T n i =
        .error (.outputTypeMismatch nm (outs.getD i.toNat default).ty n T)) ∧
    (∀ outs, mapLookup st.stepOutputs n = some outs → 0 ≤ i → i < (outs.length : Int) →
      A (outs.getD i.toNat default).ty T = true →
      resolveArgFromFunctionOutput A st nm T n i = .ok (outs.getD i.toNat default)) := by
  refine ⟨?_, ?_, ?_, ?_⟩
  · intro h
    simp only [resolveArgFromFunctionOutput, h]
  · intro outs h hrange
    simp only [resolveArgFromFunctionOutput, h]
    rw [if_pos (by omega)]
  · intro outs h h1 h2 hA
    simp only [resolveArgFromFunctionOutput, h]
    rw [if_neg (by omega), if_neg (by simp only [Bool.not_eq_true]; exact hA)]
  · intro outs h h1 h2 hA
    simp only [resolveArgFromFunctionOutput, h]
    rw [if_neg (by omega), if_pos hA]

/-- Claim C4 witness: the recorded output `⟨3, 7⟩` of step `p` at index `0`
resolves under nominal assignability. -/
theorem C4_function_output_binding_witness :
    resolveArgFromFunctionOutput tyEq c4State "w" 3 "p" 0 = .ok ⟨3, 7⟩ :=
  ((C4_function_output_binding tyEq c4State "w" 3 "p" 0).2.2.2 [⟨3, 7⟩] (by decide)
    (by decide) (by decide) (by decide)).trans (by decide)

/-- Claim C8: filtering the output log twice with the same non-empty filter
set equals filtering once, and filtering with an empty set returns the log
unchanged. -/
theorem C8_filter_idempotent_identity (cfg : PipelineConfig)
    (L : List (String × List Value)) :
    (cfg.outputFilter ≠ [] →
      filterOutputs cfg (filterOutputs cfg L) = filterOutputs cfg L) ∧
    (cfg.outputFilter = [] → filterOutputs cfg L = L) := by
  constructor
  · intro h
    have hne : cfg.outputFilter.isEmpty = false := by simp [h]
    simp [filterOutputs, hne, List.filter_filter]
  · intro h
    simp [filterOutputs, h]

/-- Claim C8 witness: a concrete log filtered by `{x}` twice and once, and
the empty filter as identity. -/
theorem C8_filter_idempotent_identity_witness :
    filterOutputs c8Config (filterOutputs c8Config c8Log) = filterOutputs c8Config c8Log ∧
    filterOutputs NewPipelineConfig c8Log = c8Log :=
  ⟨(C8_filter_idempotent_identity c8Config c8Log).1 (by decide),
   (C8_filter_idempotent_identity NewPipelineConfig c8Log).2 rfl⟩

/-- Under the `Fail` policy, default resolution errors regardless of the
state. -/
theorem resolveArgDefault_fail (cfg : PipelineConfig) (st : PipelineState) (nm : String)
    (T : Ty) (h : cfg.missingArgPolicy = MissingArgPolicyFail) :
    resolveArgDefault cfg st nm T = .error (.missingArgument nm T) := by
  unfold resolveArgDefault
  rw [h]
  rfl

/-- If some parameter slot falls back to default resolution under the
`Fail` policy, the argument-resolution loop can never succeed. -/
theorem resolveArgs_no_ok_of_default_slot (A : Ty → Ty → Bool) (cfg : PipelineConfig)
    (stp : Step) (hpol : cfg.missingArgPolicy = MissingArgPolicyFail) :
    ∀ (ts : List Ty) (i : Nat) (st : PipelineState),
      (∃ j, j < ts.length ∧ isDefaultBindingSlot cfg stp.name (i + j)) →
      ∀ out, resolveArgs A cfg stp ts i st ≠ .ok out := by
  intro ts
  induction ts with
  | nil =>
    rintro i st ⟨j, hj, -⟩ out
    simp at hj
  | cons t ts ih =>
    rintro i st ⟨j, hj, hslot⟩ out hok
    simp only [resolveArgs] at hok
    rcases j with _ | j'
    · have herr : (match bindingAt cfg stp.name i with
          | some b => resolveArg A cfg st stp.name t b
          | none => resolveArgDefault cfg st stp.name t) =
          .error (.missingArgument stp.name t) := by
        rcases hslot with hnone | ⟨b, hb, hsrc⟩
        · rw [Nat.add_zero] at hnone
          rw [hnone]
          exact resolveArgDefault_fail cfg st stp.name t hpol
        · rw [Nat.add_zero] at hb
          simp only [hb]
          unfold resolveArg
          rw [hsrc, if_neg (by decide), if_neg (by decide)]
          exact resolveArgDefault_fail cfg st stp.name t hpol
      rw [herr] at hok
      simp at hok
    · split at hok
      · exact Except.noConfusion hok
      · rename_i v st1 heq
        split at hok
        · exact Except.noConfusion hok
        · rename_i vs st2 heq2
          rw [List.length_cons] at hj
          refine ih (i + 1) st1 ⟨j', by omega, ?_⟩ (vs, st2) heq2
          have h2 : i + (j' + 1) = i + 1 + j' := by omega
          rw [h2] at hslot
          exact hslot

/-- Claim C7: with the `Fail` missing-argument policy, default resolution
always aborts with `MissingArgument` — even when values of the needed type
exist in the store — and a step with any parameter that falls back to
default resolution (no binding, a `nil` entry, or a `Default` binding) can
never execute successfully. -/
theorem C7_fail_policy :
    (∀ (cfg : PipelineConfig) (st : PipelineState) (nm : String) (T : Ty),
      cfg.missingArgPolicy = MissingArgPolicyFail →
      resolveArgDefault cfg st nm T = .error (.missingArgument nm T)) ∧
    (∀ (A : Ty → Ty → Bool) (cfg : PipelineConfig) (stp : Step) (st : PipelineState) (j : Nat),
      cfg.missingArgPolicy = MissingArgPolicyFail →
      j < stp.params.length →
      isDefaultBindingSlot cfg stp.name j →
      ∀ st1, executeStep A cfg st stp ≠ .ok st1) := by
  constructor
  · exact fun cfg st nm T h => resolveArgDefault_fail cfg st nm T h
  · intro A cfg stp st j hpol hj hslot st1 hok
    unfold executeStep at hok
    split at hok
    · exact Except.noConfusion hok
    · rename_i args st2 heq
      refine resolveArgs_no_ok_of_default_slot A cfg stp hpol stp.params 0 st
        ⟨j, hj, ?_⟩ (args, st2) heq
      rw [Nat.zero_add]
      exact hslot

/-- Claim C7 witness: the `Fail` policy rejects a default-resolved slot
even though a value of the needed type is stored. -/
theorem C7_fail_policy_witness :
    resolveArgDefault c3Config c1State "f" 0 = .error (.missingArgument "f" 0) ∧
    ∀ st1, executeStep tyEq c3Config c1State c3FailStep ≠ .ok st1 :=
  ⟨C7_fail_policy.1 c3Config c1State "f" 0 rfl,
   fun st1 => C7_fail_policy.2 tyEq c3Config c3FailStep c1State 0 rfl (by decide)
     (Or.inl (by decide)) st1⟩

/-- The clamped lookup on a nonempty sequence with a nonnegative index. -/
theorem getValueByIndex_ok_of_nonneg (ctx : ExecutionContext) (t : Ty) (i : Int)
    (hne : ctx.values t ≠ []) (hpos : 0 ≤ i) :
    ctx.getValueByIndex t i =
      .ok ((ctx.values t).getD (min i.toNat ((ctx.values t).length - 1)) default) := by
  simp only [ExecutionContext.getValueByIndex]
  have hlen : 0 < (ctx.values t).length := List.length_pos.mpr hne
  rw [if_neg (by simp [hne]), if_neg (by omega)]
  by_cases hc : ((ctx.values t).length : Int) ≤ i
  · rw [if_pos hc]
    have hmin : min i.toNat ((ctx.values t).length - 1) = (ctx.values t).length - 1 := by
      omega
    rw [hmin]
  · rw [if_neg hc]
    have hmin : min i.toNat ((ctx.values t).length - 1) = i.toNat := by
      omega
    rw [hmin]

/-- Claim C10: under `UseLatest`, default resolution succeeds whenever the
store holds at least one value of the parameter's type: the `NotFound` and
`InvalidIndex` branches are unreachable because the pick counter is never
negative and the lookup clamps any overflowing index. -/
theorem C10_useLatest_total (cfg : PipelineConfig) (st : PipelineState) (nm : String)
    (T : Ty) (hpol : cfg.missingArgPolicy = MissingArgPolicyUseLatest)
    (hne : st.ctx.values T ≠ []) :
    ∃ v st1, resolveArgDefault cfg st nm T = .ok (v, st1) := by
  have hg := getValueByIndex_ok_of_nonneg st.ctx T (st.pickCounters T : Int) hne
    (Int.ofNat_nonneg _)
  unfold resolveArgDefault
  rw [hpol, if_pos rfl]
  simp only [hg]
  by_cases hc : ((st.pickCounters T : Int)) < ((st.ctx.values T).length : Int) - 1
  · exact ⟨(st.ctx.values T).getD
        (Int.toNat (st.pickCounters T : Int) ⊓ ((st.ctx.values T).length - 1)) default,
      { st with pickCounters := fun t => if t = T then st.pickCounters T + 1
          else st.pickCounters t },
      by rw [if_pos hc]⟩
  · exact ⟨(st.ctx.values T).getD
        (Int.toNat (st.pickCounters T : Int) ⊓ ((st.ctx.values T).length - 1)) default,
      st, by rw [if_neg hc]⟩

/-- Claim C10 witness: counter `0`, two stored values of type `0`. -/
theorem C10_useLatest_total_witness :
    ∃ v st1, resolveArgDefault NewPipelineConfig c1State "s" 0 = .ok (v, st1) :=
  C10_useLatest_total NewPipelineConfig c1State "s" 0 rfl (by decide)

/-- Running a concatenation of step lists runs the prefix, and continues
with the suffix only when the prefix fully succeeded. -/
theorem runSteps_append (A : Ty → Ty → Bool) (cfg : PipelineConfig) :
    ∀ (l1 l2 : List Step) (st : PipelineState),
      runSteps A cfg (l1 ++ l2) st =
        match runSteps A cfg l1 st with
        | (st1, none) => runSteps A cfg l2 st1
        | (st1, some e) => (st1, some e) := by
  intro l1
  induction l1 with
  | nil => intro l2 st; rfl
  | cons s rest ih =>
    intro l2 st
    rw [List.cons_append]
    cases hex : executeStep A cfg (resetCounters st) s with
    | error e => simp only [runSteps, hex]
    | ok st1 =>
      simp only [runSteps, hex]
      exact ih l2 st1

/-- Claim C3: if the steps scheduled by the reordering split as
`pre ++ s :: post` where every step of `pre` succeeds and `s` fails with
`e`, then `Execute` returns the nil result together with that first error,
and the run's final internal state is exactly the state `s` started from:
the post steps never execute, so they add nothing to the output log or the
value store. -/
theorem C3_fail_fast (A : Ty → Ty → Bool) (cfg : PipelineConfig) (steps pre post : List Step)
    (s : Step) (st0 st1 : PipelineState) (e : PipelineError)
    (hord : reorderStepsIfNeeded cfg steps = pre ++ s :: post)
    (hpre : runSteps A cfg pre st0 = (st1, none))
    (hfail : executeStep A cfg (resetCounters st1) s = .error e) :
    Execute A cfg steps st0 = (none, some e) ∧
    (runSteps A cfg (reorderStepsIfNeeded cfg steps) st0).1 = resetCounters st1 := by
  have hrun : runSteps A cfg (reorderStepsIfNeeded cfg steps) st0 = (resetCounters st1, some e) := by
    rw [hord, runSteps_append A cfg pre (s :: post) st0, hpre]
    simp only [runSteps, hfail]
  constructor
  · unfold Execute
    rw [hrun]
  · rw [hrun]

/-- Claim C3 witness: under the `Fail` policy the first step aborts the
run and the trailing step is never executed. -/
theorem C3_fail_fast_witness :
    Execute tyEq c3Config [c3FailStep, c3PostStep] emptyPipelineState =
      (none, some (.missingArgument "f" 0)) ∧
    (runSteps tyEq c3Config (reorderStepsIfNeeded c3Config [c3FailStep, c3PostStep])
        emptyPipelineState).1 = resetCounters emptyPipelineState :=
  C3_fail_fast tyEq c3Config [c3FailStep, c3PostStep] [] [c3PostStep] c3FailStep
    emptyPipelineState emptyPipelineState (.missingArgument "f" 0) rfl rfl rfl

/-- Looking a key up after filtering the log by a key predicate: absent
keys stay absent, and selected keys keep their full (possibly empty)
entry. -/
theorem mapLookup_filter_key (f : String → Bool) (L : List (String × List Value)) (n : String) :
    (mapLookup L n = none → mapLookup (L.filter (fun kv => f kv.1)) n = none) ∧
    (f n = true → mapLookup (L.filter (fun kv => f kv.1)) n = mapLookup L n) := by
  induction L with
  | nil => exact ⟨fun _ => rfl, fun _ => rfl⟩
  | cons kv rest ih =>
    constructor
    · intro h
      by_cases hb : (kv.1 == n) = true
      · exfalso
        simp [mapLookup, hb] at h
      · have hrest : mapLookup rest n = none := by
          simpa [mapLookup, hb] using h
        by_cases hkeep : f kv.1 = true
        · simpa [List.filter_cons, hkeep, mapLookup, hb] using ih.1 hrest
        · simpa [List.filter_cons, hkeep] using ih.1 hrest
    · intro hf
      by_cases hb : (kv.1 == n) = true
      · have hkey : kv.1 = n := by simpa using hb
        have hkeep : f kv.1 = true := by rw [hkey]; exact hf
        simp [List.filter_cons, hkeep, mapLookup, hb]
      · by_cases hkeep : f kv.1 = true
        · simpa [List.filter_cons, hkeep, mapLookup, hb] using ih.2 hf
        · simpa [List.filter_cons, hkeep, mapLookup, hb] using ih.2 hf

/-- Claim C9 counterexample: step `Z` runs and returns zero values, yet
the filtered result does contain an entry for `Z` — the empty-list entry —
because the Go map assignment in `executeStep` creates the key even for an
empty result list.  The claim's "no entry at all, not an empty-list entry"
fails for a step that ran but returned zero values. -/
theorem C9_zero_output_entry_counterexample :
    Execute tyEq c9Config [c9Step] emptyPipelineState = (some [("Z", [])], none) ∧
    mapLookup [("Z", ([] : List Value))] "Z" = some [] := by
  constructor
  · rfl
  · rfl

/-- Claim C9 (amended): for a non-empty output filter, a filter name with
no entry in the output log (a step that never executed or does not exist)
yields no entry in the filtered result; but any name with a log entry that
the filter selects keeps its entry unchanged — including the empty-list
entry of a step that ran and returned zero values. -/
theorem C9_filter_entry_amended (cfg : PipelineConfig) (L : List (String × List Value))
    (n : String) (hne : cfg.outputFilter ≠ []) :
    (mapLookup L n = none → mapLookup (filterOutputs cfg L) n = none) ∧
    (∀ vs, mapLookup L n = some vs → cfg.outputFilter.contains n = true →
      mapLookup (filterOutputs cfg L) n = some vs) := by
  unfold filterOutputs
  rw [if_neg (by simp [hne])]
  constructor
  · intro h
    exact (mapLookup_filter_key (fun k => cfg.outputFilter.contains k) L n).1 h
  · intro vs h hc
    rw [(mapLookup_filter_key (fun k => cfg.outputFilter.contains k) L n).2 hc, h]

/-- Claim C9 (amended) witness: the zero-output entry of `Z` survives the
filter `{Z}`, and the absent name `W` stays absent. -/
theorem C9_filter_entry_amended_witness :
    mapLookup (filterOutputs c9Config [("Z", ([] : List Value))]) "W" = none ∧
    mapLookup (filterOutputs c9Config [("Z", ([] : List Value))]) "Z" = some [] :=
  ⟨(C9_filter_entry_amended c9Config [("Z", [])] "W" (by decide)).1 rfl,
   (C9_filter_entry_amended c9Config [("Z", [])] "Z" (by decide)).2 [] rfl (by decide)⟩

/-- Under `UseLatest` with an in-bounds counter, default resolution returns
the value at the counter and moves the counter for that type to
`min (counter + 1) (length - 1)`. -/
theorem resolveArgDefault_useLatest_spec (cfg : PipelineConfig) (st : PipelineState)
    (nm : String) (T : Ty) (hpol : cfg.missingArgPolicy = MissingArgPolicyUseLatest)
    (hne : st.ctx.values T ≠ [])
    (hc : st.pickCounters T ≤ (st.ctx.values T).length - 1) :
    resolveArgDefault cfg st nm T =
      .ok ((st.ctx.values T).getD (st.pickCounters T) default,
        { st with pickCounters := fun t =>
            (if t = T then min (st.pickCounters T + 1) ((st.ctx.values T).length - 1)
             else st.pickCounters t) }) := by
  have hlen : 0 < (st.ctx.values T).length := List.length_pos.mpr hne
  have hg := getValueByIndex_ok_of_nonneg st.ctx T (st.pickCounters T : Int) hne
    (Int.ofNat_nonneg _)
  have hmin : min (Int.toNat (st.pickCounters T : Int)) ((st.ctx.values T).length - 1)
      = st.pickCounters T := by omega
  rw [hmin] at hg
  unfold resolveArgDefault
  rw [hpol, if_pos rfl]
  simp only [hg]
  by_cases hlt : ((st.pickCounters T : Int)) < ((st.ctx.values T).length : Int) - 1
  · rw [if_pos hlt]
    have h1 : min (st.pickCounters T + 1) ((st.ctx.values T).length - 1)
        = st.pickCounters T + 1 := by omega
    rw [h1]
  · rw [if_neg hlt]
    have h1 : min (st.pickCounters T + 1) ((st.ctx.values T).length - 1)
        = st.pickCounters T := by omega
    rw [h1]
    have hstate : { st with pickCounters := fun t => if t = T then st.pickCounters T
        else st.pickCounters t } = st := by
      cases st with
      | mk ctx so pc =>
        simp only [PipelineState.mk.injEq]
        refine ⟨trivial, trivial, ?_⟩
        funext t
        by_cases ht : t = T
        · rw [if_pos ht, ht]
        · rw [if_neg ht]
    rw [hstate]

/-- Under `UseLatest` with no step config, resolving `m` same-typed
parameters walks the type's stored sequence from the current counter and
holds at the last value once exhausted. -/
theorem resolveArgs_useLatest_run (A : Ty → Ty → Bool) (cfg : PipelineConfig) (stp : Step)
    (T : Ty) (hpol : cfg.missingArgPolicy = MissingArgPolicyUseLatest)
    (hcfg : mapLookup cfg.stepConfigs stp.name = none) :
    ∀ (m i : Nat) (st : PipelineState), st.ctx.values T ≠ [] →
      st.pickCounters T ≤ (st.ctx.values T).length - 1 →
      ∃ st1, resolveArgs A cfg stp (List.replicate m T) i st =
        .ok ((List.range m).map (fun j =>
          (st.ctx.values T).getD (min (st.pickCounters T + j)
            ((st.ctx.values T).length - 1)) default), st1) := by
  intro m
  induction m with
  | zero =>
    intro i st hne hc
    exact ⟨st, rfl⟩
  | succ n ih =>
    intro i st hne hc
    have hbind : bindingAt cfg stp.name i = none := by
      unfold bindingAt
      rw [hcfg]
    have hdef := resolveArgDefault_useLatest_spec cfg st stp.name T hpol hne hc
    set st1 : PipelineState := { st with pickCounters := fun t =>
        (if t = T then min (st.pickCounters T + 1) ((st.ctx.values T).length - 1)
         else st.pickCounters t) } with hst1
    have hne1 : st1.ctx.values T ≠ [] := hne
    have hpc1 : st1.pickCounters T
        = min (st.pickCounters T + 1) ((st.ctx.values T).length - 1) := by
      rw [hst1]
      simp
    have hv1 : st1.ctx.values T = st.ctx.values T := rfl
    have hc1 : st1.pickCounters T ≤ (st1.ctx.values T).length - 1 := by
      rw [hpc1, hv1]
      omega
    obtain ⟨st2, hrest⟩ := ih (i + 1) st1 hne1 hc1
    rw [hv1, hpc1] at hrest
    refine ⟨st2, ?_⟩
    rw [List.replicate_succ]
    simp only [resolveArgs, hbind, hdef, hrest]
    have hlist : (List.range (n + 1)).map (fun j =>
        (st.ctx.values T).getD (min (st.pickCounters T + j)
          ((st.ctx.values T).length - 1)) default)
        = (st.ctx.values T).getD (st.pickCounters T) default ::
          (List.range n).map (fun j => (st.ctx.values T).getD
            (min (min (st.pickCounters T + 1) ((st.ctx.values T).length - 1) + j)
              ((st.ctx.values T).length - 1)) default) := by
      rw [List.range_succ_eq_map, List.map_cons, List.map_map]
      congr 1
      · have h0 : min (st.pickCounters T + 0) ((st.ctx.values T).length - 1)
            = st.pickCounters T := by omega
        rw [h0]
      · have hfe : ((fun j => (st.ctx.values T).getD (min (st.pickCounters T + j)
            ((st.ctx.values T).length - 1)) default) ∘ Nat.succ)
            = (fun j => (st.ctx.values T).getD
              (min (min (st.pickCounters T + 1) ((st.ctx.values T).length - 1) + j)
                ((st.ctx.values T).length - 1)) default) := by
          funext j
          simp only [Function.comp_apply, Nat.succ_eq_add_one]
          have hidx : min (st.pickCounters T + (j + 1)) ((st.ctx.values T).length - 1)
              = min (min (st.pickCounters T + 1) ((st.ctx.values T).length - 1) + j)
                ((st.ctx.values T).length - 1) := by omega
          rw [hidx]
        rw [hfe]
    rw [hlist]

/-- Claim C1: under `UseLatest` with `k ≥ 1` stored values of type `T`, a
step with `m` default-resolved parameters of type `T` receives, for its
`j`-th parameter, the value at position `min(j, k-1)` of `T`'s sequence
(counters start at zero because they are reset at every step); moreover the
run never depends on the pick counters a previous step left behind — they
are reset at the start of every step and never persist. -/
theorem C1_useLatest_per_step (A : Ty → Ty → Bool) (cfg : PipelineConfig) (stp : Step)
    (T : Ty) (m : Nat) (st : PipelineState)
    (hpol : cfg.missingArgPolicy = MissingArgPolicyUseLatest)
    (hcfg : mapLookup cfg.stepConfigs stp.name = none)
    (hk : st.ctx.values T ≠ []) :
    (∃ st1, resolveArgs A cfg stp (List.replicate m T) 0 (resetCounters st) =
        .ok ((List.range m).map (fun j =>
          (st.ctx.values T).getD (min j ((st.ctx.values T).length - 1)) default), st1)) ∧
    (∀ (steps : List Step) (st0 : PipelineState) (f g : Ty → Nat),
      (runSteps A cfg steps { st0 with pickCounters := f }).1.ctx =
        (runSteps A cfg steps { st0 with pickCounters := g }).1.ctx ∧
      (runSteps A cfg steps { st0 with pickCounters := f }).1.stepOutputs =
        (runSteps A cfg steps { st0 with pickCounters := g }).1.stepOutputs ∧
      (runSteps A cfg steps { st0 with pickCounters := f }).2 =
        (runSteps A cfg steps { st0 with pickCounters := g }).2) := by
  constructor
  · have hne : (resetCounters st).ctx.values T ≠ [] := hk
    have hc : (resetCounters st).pickCounters T
        ≤ ((resetCounters st).ctx.values T).length - 1 := Nat.zero_le _
    obtain ⟨st1, h⟩ := resolveArgs_useLatest_run A cfg stp T hpol hcfg m 0
      (resetCounters st) hne hc
    have h0 : (resetCounters st).pickCounters T = 0 := rfl
    have hv : (resetCounters st).ctx.values T = st.ctx.values T := rfl
    rw [h0, hv] at h
    simp only [Nat.zero_add] at h
    exact ⟨st1, h⟩
  · intro steps st0 f g
    cases steps with
    | nil => exact ⟨rfl, rfl, rfl⟩
    | cons s rest =>
      have hres : resetCounters { st0 with pickCounters := f } =
          resetCounters { st0 with pickCounters := g } := rfl
      simp [runSteps, hres]

/-- Claim C1 witness: two stored values of type `0` and three same-typed
default-policy parameters receive positions `0`, `1`, `1`. -/
theorem C1_useLatest_per_step_witness :
    ∃ st1, resolveArgs tyEq NewPipelineConfig c1Step (List.replicate 3 0) 0
        (resetCounters c1State) =
      .ok ([⟨0, 10⟩, ⟨0, 20⟩, ⟨0, 20⟩], st1) := by
  obtain ⟨st1, h⟩ := (C1_useLatest_per_step tyEq NewPipelineConfig c1Step 0 3 c1State
    rfl rfl (by decide)).1
  have hl : (List.range 3).map (fun j =>
      (c1State.ctx.values 0).getD (min j ((c1State.ctx.values 0).length - 1)) default)
      = [⟨0, 10⟩, ⟨0, 20⟩, ⟨0, 20⟩] := by decide
  rw [hl] at h
  exact ⟨st1, h⟩

end GoPipeline
